import Mathlib

/-!
Verification of the progress-computation core of `App_readonly.py`
(Croco-Eng/acacia-dashboard).

The embedding models the pandas record table as a `List Record`, with the
numeric columns as exact rationals (`ℚ`).  Each Python function of the core
(`ensure_columns`, `recompute_progress`, `step_advancement`,
`phase_advancement`, `assembly_table`) is translated to a Lean function of
the same name; the fixed configuration tables (`STEPS_ORDER`, `STEP_RANK`,
`PROGRESS_MAP`) are translated literally.  Python `dict`s are modelled as
association lists with `List.lookup`, so that `dict.get(k, d)` becomes
`(List.lookup k m).getD d`.

Python's string comparison (used by `sorted` and by pandas `groupby` key
sorting) is lexicographic on Unicode code points; it is modelled by the
structurally recursive comparators `charListLe` / `charListLt` below, which
agree with code-point lexicographic order and evaluate by kernel reduction.
-/

/-! ## Code-point lexicographic string order (Python `sorted` semantics) -/

/-- Lexicographic `≤` on char lists, comparing Unicode code points. -/
def charListLe : List Char → List Char → Bool
  | [], _ => true
  | _ :: _, [] => false
  | a :: as, b :: bs =>
    if a.toNat < b.toNat then true
    else if b.toNat < a.toNat then false
    else charListLe as bs

/-- Lexicographic `<` on char lists, comparing Unicode code points. -/
def charListLt : List Char → List Char → Bool
  | [], [] => false
  | [], _ :: _ => true
  | _ :: _, [] => false
  | a :: as, b :: bs =>
    if a.toNat < b.toNat then true
    else if b.toNat < a.toNat then false
    else charListLt as bs

/-- Python string `≤` (code-point lexicographic). -/
def strLe (a b : String) : Bool := charListLe a.data b.data

/-- Python string `<` (code-point lexicographic). -/
def strLt (a b : String) : Bool := charListLt a.data b.data

instance : DecidableRel (fun a b : String => strLe a b = true) :=
  fun _ _ => instDecidableEqBool _ _

theorem charListLe_total : ∀ as bs : List Char,
    charListLe as bs = true ∨ charListLe bs as = true
  | [], [] => Or.inl rfl
  | [], _ :: _ => Or.inl rfl
  | _ :: _, [] => Or.inr rfl
  | a :: as, b :: bs => by
    rcases Nat.lt_trichotomy a.toNat b.toNat with h | h | h
    · left; simp [charListLe, h]
    · have h1 : ¬ a.toNat < b.toNat := by omega
      have h2 : ¬ b.toNat < a.toNat := by omega
      have ih := charListLe_total as bs
      rcases ih with ih | ih
      · left; simp [charListLe, h1, h2, ih]
      · right; simp [charListLe, h1, h2, ih]
    · right; simp [charListLe, h, Nat.lt_asymm h]

theorem charListLe_trans : ∀ as bs cs : List Char,
    charListLe as bs = true → charListLe bs cs = true → charListLe as cs = true
  | [], _, _ => fun _ _ => rfl
  | _ :: _, [], _ => fun h _ => by simp [charListLe] at h
  | _ :: _, _ :: _, [] => fun _ h => by simp [charListLe] at h
  | a :: as, b :: bs, c :: cs => fun h1 h2 => by
    simp only [charListLe] at h1 h2 ⊢
    by_cases hab : a.toNat < b.toNat <;> by_cases hba : b.toNat < a.toNat <;>
      by_cases hbc : b.toNat < c.toNat <;> by_cases hcb : c.toNat < b.toNat <;>
      simp only [hab, hba, hbc, hcb, if_true, if_false] at h1 h2 <;>
      first
        | omega
        | exact Bool.noConfusion h1
        | exact Bool.noConfusion h2
        | (have hac : a.toNat < c.toNat := by omega
           simp [hac])
        | (have hac1 : ¬ a.toNat < c.toNat := by omega
           have hac2 : ¬ c.toNat < a.toNat := by omega
           simp only [hac1, hac2, if_false]
           exact charListLe_trans as bs cs h1 h2)

instance : IsTotal String (fun a b : String => strLe a b = true) :=
  ⟨fun a b => charListLe_total a.data b.data⟩

instance : IsTrans String (fun a b : String => strLe a b = true) :=
  ⟨fun a b c => charListLe_trans a.data b.data c.data⟩

/-! ## Configuration tables (source lines 40-48) -/

/-- Source line 40: `STEPS_ORDER = ["Préparation", "Assemblage", "Traitement de surface", "Finalisation"]`. -/
def STEPS_ORDER : List String :=
  ["Préparation", "Assemblage", "Traitement de surface", "Finalisation"]

/-- Source line 41: `STEP_RANK = {s: i for i, s in enumerate(STEPS_ORDER)}`, as an association list. -/
def STEP_RANK : List (String × Nat) :=
  STEPS_ORDER.enum.map (fun p => (p.2, p.1))

/-- Python `STEP_RANK.get(s, -1)` (used with default `-1` at lines 135 and 160).
For `s ∈ STEPS_ORDER` the lookup succeeds, so this also models the direct
access `STEP_RANK[step]` at line 135. -/
def rankGet (s : String) : ℤ :=
  match List.lookup s STEP_RANK with
  | some i => (i : ℤ)
  | none => -1

/-- Source lines 42-48: `PROGRESS_MAP`, as an association list (decimal
weights are exact rationals). -/
def PROGRESS_MAP : List (String × ℚ) :=
  [("Préparation", 0.25), ("Assemblage", 0.60), ("Traitement de surface", 0.85),
   ("Finalisation", 1.00), ("None", 0.00)]

/-- Pandas `Series.map(PROGRESS_MAP).fillna(0.0)` applied to one step value
(source line 123): dictionary lookup with missing keys becoming `0.0`. -/
def progressGet (s : String) : ℚ := (List.lookup s PROGRESS_MAP).getD 0

/-- Source line 162: `inv_rank = {v: k for k, v in STEP_RANK.items()}`. -/
def inv_rank : List (ℤ × String) :=
  STEP_RANK.map (fun p => ((p.2 : ℤ), p.1))

/-- Source line 163: `.map(inv_rank).fillna("None")` applied to one rank:
inverse-rank lookup with missing keys becoming `"None"`. -/
def invRankFill (r : ℤ) : String := (List.lookup r inv_rank).getD "None"

/-! ## The record table -/

/-- One row of the pandas DataFrame after `ensure_columns`: columns `PHASE`,
`ASSEMBLY NO.`, `PART NO.`, `TOT MASS (Kg)`, `Etape`, `RowProgress%`,
`CompletedMass_Row`. -/
structure Record where
  phase : String
  assembly_no : String
  part_no : String
  tot_mass : ℚ
  etape : String
  rowProgress : ℚ
  completedMass_Row : ℚ
deriving DecidableEq, Repr

/-! ## recompute_progress (source lines 120-125) -/

/-- Per-row effect of the two vectorized assignments in `recompute_progress`:
`out["RowProgress%"] = out["Etape"].map(PROGRESS_MAP).fillna(0.0)` and
`out["CompletedMass_Row"] = out["TOT MASS (Kg)"] * out["RowProgress%"]`. -/
def recomputeRow (r : Record) : Record :=
  { r with rowProgress := progressGet r.etape,
           completedMass_Row := r.tot_mass * progressGet r.etape }

/-- Source lines 120-125: `recompute_progress` (operates on a copy `out = df.copy()`,
hence a pure function of the table). -/
def recompute_progress (df : List Record) : List Record := df.map recomputeRow

/-! ## step_advancement (source lines 128-140) -/

/-- One output row of `step_advancement`:
`{"Etape": step, "CompletedMass": treated_mass, "Avancement%": pct}`. -/
structure StepRow where
  etape : String
  completedMass : ℚ
  avancement : ℚ
deriving DecidableEq, Repr

/-- Source line 131: `total_mass = df["TOT MASS (Kg)"].sum()`. -/
def total_mass (df : List Record) : ℚ := (df.map Record.tot_mass).sum

/-- Source lines 134-137: the treated mass for one step, i.e. the sum of
`TOT MASS (Kg)` over rows whose `STEP_RANK.get(Etape, -1)` is `≥ STEP_RANK[step]`
(for `step ∈ STEPS_ORDER` the direct access equals `rankGet step`). -/
def treated_mass (df : List Record) (step : String) : ℚ :=
  ((df.filter (fun r => rankGet step ≤ rankGet r.etape)).map Record.tot_mass).sum

/-- Source lines 128-140: `step_advancement` — one output row per step of
`STEPS_ORDER`, with `pct = (treated_mass / total_mass) * 100 if total_mass > 0 else 0.0`. -/
def step_advancement (df : List Record) : List StepRow :=
  STEPS_ORDER.map (fun step =>
    { etape := step,
      completedMass := treated_mass df step,
      avancement :=
        if total_mass df > 0 then treated_mass df step / total_mass df * 100 else 0 })

/-! ## phase_advancement (source lines 143-152) -/

/-- One output row of `phase_advancement`:
`{"PHASE": phase, "CompletedMass": treated_mass, "Avancement%": pct}`. -/
structure PhaseRow where
  phase : String
  completedMass : ℚ
  avancement : ℚ
deriving DecidableEq, Repr

/-- Source line 147: `sorted(df["PHASE"].unique())` — the distinct phase values
in ascending code-point lexicographic order (`dedup` followed by a sort is
extensionally Python's `sorted(unique(...))` since the keys are distinct). -/
def sortedPhases (df : List Record) : List String :=
  List.insertionSort (fun a b => strLe a b = true) ((df.map Record.phase).dedup)

/-- Source line 148: `df.loc[df["PHASE"] == phase, "TOT MASS (Kg)"].sum()`. -/
def phase_total_mass (df : List Record) (p : String) : ℚ :=
  ((df.filter (fun r => r.phase == p)).map Record.tot_mass).sum

/-- Source line 149: `df.loc[df["PHASE"] == phase, "CompletedMass_Row"].sum()`. -/
def phase_treated_mass (df : List Record) (p : String) : ℚ :=
  ((df.filter (fun r => r.phase == p)).map Record.completedMass_Row).sum

/-- Source lines 143-152: `phase_advancement` — one row per distinct phase in
sorted order, with `pct = (treated_mass / phase_total_mass) * 100 if phase_total_mass > 0 else 0.0`. -/
def phase_advancement (df : List Record) : List PhaseRow :=
  (sortedPhases df).map (fun p =>
    { phase := p,
      completedMass := phase_treated_mass df p,
      avancement :=
        if phase_total_mass df p > 0 then
          phase_treated_mass df p / phase_total_mass df p * 100
        else 0 })

/-! ## assembly_table (source lines 155-164) -/

/-- One output row of `assembly_table`:
columns `PHASE`, `ASSEMBLY NO.`, `AssemblyMass`, `EtapeAsm`. -/
structure AsmRow where
  phase : String
  assembly_no : String
  assemblyMass : ℚ
  etapeAsm : String
deriving DecidableEq, Repr

/-- Ascending order on `(PHASE, ASSEMBLY NO.)` pairs, as pandas `groupby`
(with its default `sort=True`) orders group keys: lexicographic on the tuple. -/
def pairLe (a b : String × String) : Bool :=
  strLt a.1 b.1 || (a.1 == b.1 && strLe a.2 b.2)

/-- The group keys of `df.groupby(["PHASE", "ASSEMBLY NO."])`: the distinct
`(PHASE, ASSEMBLY NO.)` pairs present, in ascending order. -/
def groupKeys (df : List Record) : List (String × String) :=
  List.insertionSort (fun a b => pairLe a b = true)
    ((df.map (fun r => (r.phase, r.assembly_no))).dedup)

/-- The member rows of one `(PHASE, ASSEMBLY NO.)` group. -/
def groupMembers (df : List Record) (k : String × String) : List Record :=
  df.filter (fun r => r.phase == k.1 && r.assembly_no == k.2)

/-- Source line 160: the aggregation lambda
`lambda s: min([STEP_RANK.get(x, -1) for x in s]) if len(s) else -1`. -/
def etapeRankAgg (steps : List String) : ℤ :=
  if steps.length ≠ 0 then ((steps.map rankGet).min?).getD (-1) else -1

/-- Source lines 155-164: `assembly_table` — group by `(PHASE, ASSEMBLY NO.)`,
sum the member masses, aggregate the member steps to the minimum rank, and
map the rank back to a step name (missing ranks becoming `"None"`). -/
def assembly_table (df : List Record) : List AsmRow :=
  (groupKeys df).map (fun k =>
    { phase := k.1,
      assembly_no := k.2,
      assemblyMass := ((groupMembers df k).map Record.tot_mass).sum,
      etapeAsm := invRankFill (etapeRankAgg ((groupMembers df k).map Record.etape)) })

/-! ## Global KPI (source lines 179-181) -/

/-- Source line 180: `completed_global_mass = float(st.session_state["df"]["CompletedMass_Row"].sum())`. -/
def completed_global_mass (df : List Record) : ℚ :=
  (df.map Record.completedMass_Row).sum

/-! ## Helper lemmas about the configuration tables -/

theorem progressGet_preparation : progressGet "Préparation" = 0.25 := rfl

theorem progressGet_assemblage : progressGet "Assemblage" = 0.60 := rfl

theorem progressGet_traitement : progressGet "Traitement de surface" = 0.85 := rfl

theorem progressGet_finalisation : progressGet "Finalisation" = 1.00 := rfl

theorem progressGet_sentinel : progressGet "None" = 0.00 := rfl

theorem progressGet_nonneg (s : String) : 0 ≤ progressGet s := by
  simp only [progressGet, PROGRESS_MAP, List.lookup]
  repeat' split
  all_goals norm_num

theorem progressGet_le_one (s : String) : progressGet s ≤ 1 := by
  simp only [progressGet, PROGRESS_MAP, List.lookup]
  repeat' split
  all_goals norm_num

theorem rankGet_neg_one_le (s : String) : -1 ≤ rankGet s := by
  simp only [rankGet]
  split
  · exact le_trans (by norm_num) (Int.natCast_nonneg _)
  · exact le_refl _

theorem rankGet_steps_get : ∀ (i : Nat) (hi : i < STEPS_ORDER.length),
    rankGet (STEPS_ORDER.get ⟨i, hi⟩) = i
  | 0, _ => rfl
  | 1, _ => rfl
  | 2, _ => rfl
  | 3, _ => rfl
  | n + 4, hi => by
    simp only [STEPS_ORDER, List.length_cons, List.length_nil] at hi
    omega

theorem rankGet_nonneg_of_mem_steps (s : String) (hs : s ∈ STEPS_ORDER) :
    0 ≤ rankGet s := by
  fin_cases hs <;> decide

theorem lookup_step_rank_eq_none (s : String) (hs : s ∉ STEPS_ORDER) :
    List.lookup s STEP_RANK = none := by
  have hrank : STEP_RANK = [("Préparation", 0), ("Assemblage", 1),
      ("Traitement de surface", 2), ("Finalisation", 3)] := by decide
  simp only [STEPS_ORDER, List.mem_cons, List.not_mem_nil, or_false, not_or] at hs
  obtain ⟨h1, h2, h3, h4⟩ := hs
  simp [hrank, List.lookup, beq_eq_decide, h1, h2, h3, h4]

theorem rankGet_eq_neg_one (s : String) (hs : s ∉ STEPS_ORDER) : rankGet s = -1 := by
  simp [rankGet, lookup_step_rank_eq_none s hs]

/-! ## Helper lemmas about filtered mass sums -/

theorem sum_filter_mass_mono (df : List Record) (p q : Record → Bool)
    (hm : ∀ r ∈ df, 0 ≤ r.tot_mass) (hpq : ∀ r, q r = true → p r = true) :
    ((df.filter q).map Record.tot_mass).sum ≤ ((df.filter p).map Record.tot_mass).sum := by
  induction df with
  | nil => simp
  | cons a t ih =>
    have hat : 0 ≤ a.tot_mass := hm a (by simp)
    have iht := ih (fun r hr => hm r (by simp [hr]))
    by_cases hq : q a
    · have hp : p a := hpq a hq
      simpa [List.filter_cons, hq, hp] using add_le_add_left iht a.tot_mass
    · by_cases hp : p a
      · simp only [List.filter_cons, hq, hp, if_true, if_false, List.map_cons, List.sum_cons]
        calc ((t.filter q).map Record.tot_mass).sum
            ≤ ((t.filter p).map Record.tot_mass).sum := iht
          _ ≤ a.tot_mass + ((t.filter p).map Record.tot_mass).sum :=
              le_add_of_nonneg_left hat
      · simpa [List.filter_cons, hq, hp] using iht

theorem total_mass_nonneg (df : List Record) (hm : ∀ r ∈ df, 0 ≤ r.tot_mass) :
    0 ≤ total_mass df := by
  refine List.sum_nonneg ?_
  intro x hx
  obtain ⟨r, hr, rfl⟩ := List.mem_map.mp hx
  exact hm r hr

theorem phase_total_mass_nonneg (df : List Record) (p : String)
    (hm : ∀ r ∈ df, 0 ≤ r.tot_mass) : 0 ≤ phase_total_mass df p := by
  refine List.sum_nonneg ?_
  intro x hx
  obtain ⟨r, hr, rfl⟩ := List.mem_map.mp hx
  exact hm r (List.mem_of_mem_filter hr)

/-! ## The scenario table from the specification -/

/-- Scenario record `{phase: "A", step: "Préparation", mass: 100}`. -/
def partPrep : Record :=
  { phase := "A", assembly_no := "S1", part_no := "P1", tot_mass := 100,
    etape := "Préparation", rowProgress := 0, completedMass_Row := 0 }

/-- Scenario record `{phase: "A", step: "Finalisation", mass: 100}`. -/
def partFin : Record :=
  { phase := "A", assembly_no := "S1", part_no := "P2", tot_mass := 100,
    etape := "Finalisation", rowProgress := 0, completedMass_Row := 0 }

/-- The two-record scenario table of the specification. -/
def scenarioA : List Record := [partPrep, partFin]

/-! ## Claim C5 — per-row progress computation -/

/-- C5: for every record table, `recompute_progress` sets, for every record,
`RowProgress%` to the weight-table lookup of its step with default `0.0` for
unknown step values (hence `RowProgress%` is always in `[0, 1]`) and
`CompletedMass_Row` to `TOT MASS (Kg) * RowProgress%`.  Being a total
function of the table, it raises no error for any step value. -/
theorem c5_recompute_progress_rows (df : List Record) :
    (recompute_progress df).length = df.length ∧
    ∀ (i : Nat) (r s : Record), df.get? i = some r →
      (recompute_progress df).get? i = some s →
      s.rowProgress = progressGet r.etape ∧
      0 ≤ s.rowProgress ∧ s.rowProgress ≤ 1 ∧
      s.completedMass_Row = r.tot_mass * s.rowProgress := by
  refine ⟨List.length_map df recomputeRow, ?_⟩
  intro i r s hr hs
  have hs' : (recompute_progress df).get? i = some (recomputeRow r) := by
    simp only [recompute_progress, List.get?_eq_getElem?, List.getElem?_map]
    simp only [List.get?_eq_getElem?] at hr
    simp [hr]
  have hsr : s = recomputeRow r := by
    have := hs'.symm.trans hs
    exact (Option.some_injective _ this).symm
  subst hsr
  refine ⟨rfl, progressGet_nonneg r.etape, progressGet_le_one r.etape, rfl⟩

/-- Witness for C5 at the scenario table, row 0. -/
theorem c5_recompute_progress_rows_witness :
    scenarioA.get? 0 = some partPrep ∧
    (recompute_progress scenarioA).get? 0 = some (recomputeRow partPrep) ∧
    ((recomputeRow partPrep).rowProgress = progressGet partPrep.etape ∧
      0 ≤ (recomputeRow partPrep).rowProgress ∧ (recomputeRow partPrep).rowProgress ≤ 1 ∧
      (recomputeRow partPrep).completedMass_Row
        = partPrep.tot_mass * (recomputeRow partPrep).rowProgress) :=
  ⟨rfl, rfl, (c5_recompute_progress_rows scenarioA).2 0 partPrep (recomputeRow partPrep) rfl rfl⟩

/-! ## Claim C6 — idempotence of recompute_progress -/

/-- C6: `recompute_progress` is idempotent — applying it twice yields output
identical to applying it once. -/
theorem c6_recompute_progress_idempotent (df : List Record) :
    recompute_progress (recompute_progress df) = recompute_progress df := by
  simp only [recompute_progress, List.map_map]
  exact List.map_congr_left (fun r _ => rfl)

/-! ## Claim C1 — step aggregation -/

/-- C1: for every record table with non-negative masses (the data model's
`mass_kg` invariant), `step_advancement` returns one output row per defined
step, iterating the fixed order Préparation, Assemblage, Traitement de
surface, Finalisation; each row's treated mass is the sum of `TOT MASS (Kg)`
over records whose step rank is `≥` the row's step rank, and its percentage
is `treated / total * 100`, or `0.0` when the total mass is `0`.  At the
scenario table the output is 200 kg (100%) at "Préparation" and 100 kg (50%)
at "Finalisation". -/
theorem c1_step_advancement_correct (df : List Record)
    (hm : ∀ r ∈ df, 0 ≤ r.tot_mass) :
    (step_advancement df).map StepRow.etape = STEPS_ORDER ∧
    (∀ row ∈ step_advancement df,
      row.completedMass = treated_mass df row.etape ∧
      row.avancement =
        (if total_mass df = 0 then 0
         else treated_mass df row.etape / total_mass df * 100)) ∧
    (step_advancement scenarioA).map
        (fun row => (row.etape, row.completedMass, row.avancement)) =
      [("Préparation", 200, 100), ("Assemblage", 100, 50),
       ("Traitement de surface", 100, 50), ("Finalisation", 100, 50)] := by
  refine ⟨?_, ?_, ?_⟩
  · simp only [step_advancement, List.map_map]
    exact List.map_id' STEPS_ORDER
  · intro row hrow
    obtain ⟨s, _, rfl⟩ := List.mem_map.mp hrow
    refine ⟨rfl, ?_⟩
    have h0 : 0 ≤ total_mass df := total_mass_nonneg df hm
    by_cases hz : total_mass df = 0
    · simp [hz]
    · have hpos : 0 < total_mass df := lt_of_le_of_ne h0 (Ne.symm hz)
      simp [hz, hpos]
  · norm_num +decide [step_advancement, STEPS_ORDER, treated_mass, total_mass,
      scenarioA, partPrep, partFin, List.filter]

/-- Witness for C1 at the scenario table. -/
theorem c1_step_advancement_correct_witness :
    (∀ r ∈ scenarioA, 0 ≤ r.tot_mass) ∧
    ((step_advancement scenarioA).map StepRow.etape = STEPS_ORDER ∧
    (∀ row ∈ step_advancement scenarioA,
      row.completedMass = treated_mass scenarioA row.etape ∧
      row.avancement =
        (if total_mass scenarioA = 0 then 0
         else treated_mass scenarioA row.etape / total_mass scenarioA * 100)) ∧
    (step_advancement scenarioA).map
        (fun row => (row.etape, row.completedMass, row.avancement)) =
      [("Préparation", 200, 100), ("Assemblage", 100, 50),
       ("Traitement de surface", 100, 50), ("Finalisation", 100, 50)]) :=
  ⟨by decide, c1_step_advancement_correct scenarioA (by decide)⟩

/-! ## Claim C2 — monotonicity of the step aggregation -/

/-- C2: for every record table with non-negative masses, the treated-mass
column of `step_advancement` is monotonically non-increasing as the step
rank increases along the fixed step order. -/
theorem c2_step_advancement_antitone (df : List Record)
    (hm : ∀ r ∈ df, 0 ≤ r.tot_mass) :
    ∀ (i j : Nat) (hi : i < (step_advancement df).length)
      (hj : j < (step_advancement df).length), i ≤ j →
      ((step_advancement df).get ⟨j, hj⟩).completedMass ≤
        ((step_advancement df).get ⟨i, hi⟩).completedMass := by
  intro i j hi hj hij
  have hlen : (step_advancement df).length = STEPS_ORDER.length := by
    simp [step_advancement]
  have hi' : i < STEPS_ORDER.length := hlen ▸ hi
  have hj' : j < STEPS_ORDER.length := hlen ▸ hj
  have hget : ∀ (k : Nat) (hk : k < (step_advancement df).length)
      (hk' : k < STEPS_ORDER.length),
      ((step_advancement df).get ⟨k, hk⟩).completedMass =
        treated_mass df (STEPS_ORDER.get ⟨k, hk'⟩) := by
    intro k hk hk'
    simp [step_advancement, List.get_map]
  rw [hget i hi hi', hget j hj hj']
  apply sum_filter_mass_mono df _ _ hm
  intro r hr
  have hij' : rankGet (STEPS_ORDER.get ⟨i, hi'⟩) ≤ rankGet (STEPS_ORDER.get ⟨j, hj'⟩) := by
    rw [rankGet_steps_get i hi', rankGet_steps_get j hj']
    exact_mod_cast hij
  simp only [decide_eq_true_eq] at hr ⊢
  exact le_trans hij' hr

/-- Witness for C2 at the scenario table, comparing ranks 0 and 3. -/
theorem c2_step_advancement_antitone_witness :
    (∀ r ∈ scenarioA, 0 ≤ r.tot_mass) ∧
    (0 < (step_advancement scenarioA).length ∧ 3 < (step_advancement scenarioA).length) ∧
    ((step_advancement scenarioA).get ⟨3, by decide⟩).completedMass ≤
      ((step_advancement scenarioA).get ⟨0, by decide⟩).completedMass :=
  ⟨by decide, ⟨by decide, by decide⟩,
    c2_step_advancement_antitone scenarioA (by decide) 0 3 (by decide) (by decide)
      (by decide)⟩

/-! ## Helper lemmas about the sorted phase list -/

theorem mem_sortedPhases (df : List Record) (p : String) :
    p ∈ sortedPhases df ↔ ∃ r ∈ df, r.phase = p := by
  unfold sortedPhases
  rw [(List.perm_insertionSort _ _).mem_iff, List.mem_dedup, List.mem_map]

theorem sortedPhases_nodup (df : List Record) : (sortedPhases df).Nodup := by
  have hperm :=
    List.perm_insertionSort (fun a b => strLe a b = true) ((df.map Record.phase).dedup)
  exact (hperm.nodup_iff).mpr (List.nodup_dedup _)

theorem sortedPhases_sorted (df : List Record) :
    (sortedPhases df).Pairwise (fun a b => strLe a b = true) :=
  List.sorted_insertionSort _ _

/-! ## Claim C3 — phase aggregation -/

/-- C3: for every record table with non-negative masses, `phase_advancement`
returns exactly one entry per distinct phase value present in the data, in
ascending lexicographic order of the phase identifier; each entry's treated
mass is the sum of `CompletedMass_Row` over the rows of that phase (the
step-weighted values, not cumulative-by-rank), and its percentage is
`treated / phase_total * 100`, or `0.0` when the phase's total mass is `0`. -/
theorem c3_phase_advancement_correct (df : List Record)
    (hm : ∀ r ∈ df, 0 ≤ r.tot_mass) :
    ((phase_advancement df).map PhaseRow.phase).Pairwise
      (fun a b => strLe a b = true ∧ a ≠ b) ∧
    (∀ p : String, (∃ row ∈ phase_advancement df, row.phase = p) ↔
      ∃ r ∈ df, r.phase = p) ∧
    (∀ row ∈ phase_advancement df,
      row.completedMass = phase_treated_mass df row.phase ∧
      row.avancement =
        (if phase_total_mass df row.phase = 0 then 0
         else phase_treated_mass df row.phase / phase_total_mass df row.phase * 100)) := by
  have hmap : (phase_advancement df).map PhaseRow.phase = sortedPhases df := by
    simp only [phase_advancement, List.map_map]
    exact List.map_id' _
  refine ⟨?_, ?_, ?_⟩
  · rw [hmap]
    exact (sortedPhases_sorted df).and (sortedPhases_nodup df)
  · intro p
    constructor
    · rintro ⟨row, hrow, rfl⟩
      have hp : row.phase ∈ sortedPhases df :=
        hmap ▸ List.mem_map_of_mem PhaseRow.phase hrow
      exact (mem_sortedPhases df row.phase).mp hp
    · intro hp
      have hp' : p ∈ sortedPhases df := (mem_sortedPhases df p).mpr hp
      refine ⟨_, List.mem_map_of_mem _ hp', rfl⟩
  · intro row hrow
    obtain ⟨p, hp, rfl⟩ := List.mem_map.mp hrow
    refine ⟨rfl, ?_⟩
    have h0 : 0 ≤ phase_total_mass df p := phase_total_mass_nonneg df p hm
    by_cases hz : phase_total_mass df p = 0
    · simp [hz]
    · have hpos : 0 < phase_total_mass df p := lt_of_le_of_ne h0 (Ne.symm hz)
      simp [hz, hpos]

/-- Witness for C3 at the recomputed scenario table. -/
theorem c3_phase_advancement_correct_witness :
    (∀ r ∈ recompute_progress scenarioA, 0 ≤ r.tot_mass) ∧
    (((phase_advancement (recompute_progress scenarioA)).map PhaseRow.phase).Pairwise
      (fun a b => strLe a b = true ∧ a ≠ b) ∧
    (∀ p : String,
      (∃ row ∈ phase_advancement (recompute_progress scenarioA), row.phase = p) ↔
      ∃ r ∈ recompute_progress scenarioA, r.phase = p) ∧
    (∀ row ∈ phase_advancement (recompute_progress scenarioA),
      row.completedMass = phase_treated_mass (recompute_progress scenarioA) row.phase ∧
      row.avancement =
        (if phase_total_mass (recompute_progress scenarioA) row.phase = 0 then 0
         else phase_treated_mass (recompute_progress scenarioA) row.phase /
            phase_total_mass (recompute_progress scenarioA) row.phase * 100))) :=
  ⟨by decide, c3_phase_advancement_correct (recompute_progress scenarioA) (by decide)⟩

/-! ## Helper lemmas for the phase partition identity -/

theorem sum_map_add_rat {α : Type} (l : List α) (f g : α → ℚ) :
    (l.map (fun x => f x + g x)).sum = (l.map f).sum + (l.map g).sum := by
  induction l with
  | nil => simp
  | cons a t ih => simp [ih]; ring

theorem sum_map_ite_eq_of_nodup (ps : List String) (a : String) (c : ℚ)
    (hnd : ps.Nodup) (ha : a ∈ ps) :
    (ps.map (fun p => if a == p then c else 0)).sum = c := by
  induction ps with
  | nil => simp at ha
  | cons q t ih =>
    have hq := List.nodup_cons.mp hnd
    rcases List.mem_cons.mp ha with h | hat
    · subst h
      have hzero : (t.map (fun p => if a == p then c else 0)).sum = 0 := by
        apply List.sum_eq_zero
        intro x hx
        obtain ⟨p, hp, rfl⟩ := List.mem_map.mp hx
        have hne : a ≠ p := fun h => hq.1 (h ▸ hp)
        simp [hne]
      simp only [List.map_cons, List.sum_cons, hzero, add_zero]
      simp
    · have haq : a ≠ q := fun h => hq.1 (h ▸ hat)
      have hif : (if a == q then c else 0) = 0 := by simp [haq]
      simp only [List.map_cons, List.sum_cons, hif, zero_add]
      exact ih hq.2 hat

theorem sum_phase_treated_partition (df : List Record) (ps : List String)
    (hnd : ps.Nodup) (hcov : ∀ r ∈ df, r.phase ∈ ps) :
    (ps.map (fun p => phase_treated_mass df p)).sum =
      (df.map Record.completedMass_Row).sum := by
  induction df with
  | nil => simp [phase_treated_mass]
  | cons a t ih =>
    have iht := ih (fun r hr => hcov r (List.mem_cons_of_mem a hr))
    have hsplit : ∀ p : String, phase_treated_mass (a :: t) p =
        (if a.phase == p then a.completedMass_Row else 0) + phase_treated_mass t p := by
      intro p
      by_cases h : a.phase == p
      · simp [phase_treated_mass, List.filter_cons, h]
      · simp [phase_treated_mass, List.filter_cons, h]
    calc (ps.map (fun p => phase_treated_mass (a :: t) p)).sum
        = (ps.map (fun p =>
            (if a.phase == p then a.completedMass_Row else 0) + phase_treated_mass t p)).sum := by
          simp only [hsplit]
      _ = (ps.map (fun p => if a.phase == p then a.completedMass_Row else 0)).sum +
          (ps.map (fun p => phase_treated_mass t p)).sum := sum_map_add_rat ps _ _
      _ = a.completedMass_Row + (t.map Record.completedMass_Row).sum := by
          rw [sum_map_ite_eq_of_nodup ps a.phase a.completedMass_Row hnd
            (hcov a (List.mem_cons_self a t)), iht]
      _ = ((a :: t).map Record.completedMass_Row).sum := by simp

/-! ## Claim C4 — phase totals partition the global completed mass -/

/-- C4: for every record table on which row progress has been recomputed,
the sum of treated masses over the phase aggregation equals the global
completed mass (the sum of `CompletedMass_Row` over all records): the
mass-weighted totals partition additively across phases. -/
theorem c4_phase_partition (df0 : List Record) :
    ((phase_advancement (recompute_progress df0)).map PhaseRow.completedMass).sum =
      completed_global_mass (recompute_progress df0) := by
  have h1 : (phase_advancement (recompute_progress df0)).map PhaseRow.completedMass =
      (sortedPhases (recompute_progress df0)).map
        (fun p => phase_treated_mass (recompute_progress df0) p) := by
    simp only [phase_advancement, List.map_map]
    rfl
  rw [h1]
  exact sum_phase_treated_partition (recompute_progress df0)
    (sortedPhases (recompute_progress df0))
    (sortedPhases_nodup (recompute_progress df0))
    (fun r hr => (mem_sortedPhases (recompute_progress df0) r.phase).mpr ⟨r, hr, rfl⟩)

/-! ## Raw DataFrame model for ensure_columns (source lines 61-78)

The raw Excel table is modelled with dynamic cells: a cell is a string, a
number, or NaN.  A column of the pandas DataFrame is modelled by a presence
flag together with one cell per row (the cells of an absent column are
irrelevant padding).  `pd.to_numeric(..., errors="coerce")` applied to a
cell keeps numbers and turns everything unparseable into NaN; a string cell
here stands for a non-numeric string (a numeric string is modelled as a
number cell, which is what `to_numeric` makes of it). -/

/-- One dynamic cell of the raw table. -/
inductive Cell where
  | str : String → Cell
  | num : ℚ → Cell
  | nan : Cell
deriving DecidableEq, Repr

/-- Python `str(...)` / pandas `.astype(str)` on one cell. -/
def Cell.asStr : Cell → String
  | .str s => s
  | .num q => toString q
  | .nan => "nan"

/-- Pandas `pd.to_numeric(..., errors="coerce")` on one cell (`none` is NaN). -/
def Cell.toNumeric : Cell → Option ℚ
  | .num q => some q
  | .str _ => none
  | .nan => none

/-- One row of the raw table, one cell per (possibly absent) column. -/
structure DFRow where
  phase : Cell
  assembly_no : Cell
  part_no : Cell
  tot_mass : Cell
  etape : Cell
  rowProgress : Cell
  completedMass : Cell
deriving DecidableEq, Repr

/-- The raw table: presence flags for the columns used by `ensure_columns`,
plus the rows. -/
structure DF where
  hasPhase : Bool
  hasAssembly : Bool
  hasPart : Bool
  hasMass : Bool
  hasEtape : Bool
  hasRowProgress : Bool
  hasCompleted : Bool
  rows : List DFRow
deriving DecidableEq, Repr

/-- The column assignments of `ensure_columns` (source lines 69-77), per row:
`df["PHASE"] = df["PHASE"].astype(str)`,
`df["TOT MASS (Kg)"] = pd.to_numeric(df["TOT MASS (Kg)"], errors="coerce").fillna(0.0)`,
and initialization of `Etape` / `RowProgress%` / `CompletedMass_Row` when the
column is absent. -/
def harmonizeRow (hasEtape hasRowProgress hasCompleted : Bool) (r : DFRow) : DFRow :=
  { r with
    phase := Cell.str r.phase.asStr,
    tot_mass := Cell.num (r.tot_mass.toNumeric.getD 0),
    etape := if hasEtape then r.etape else Cell.str "None",
    rowProgress := if hasRowProgress then r.rowProgress else Cell.num 0.0,
    completedMass := if hasCompleted then r.completedMass else Cell.num 0.0 }

/-- Source lines 61-78: `ensure_columns`.  The required-column loop checks
`PHASE`, `ASSEMBLY NO.`, `PART NO.`, `TOT MASS (Kg)` in order and halts via
`st.error` + `st.stop()` at the first missing one (modelled as `Except.error`
carrying the missing column's name); otherwise the column assignments run
and the (mutated) frame is returned. -/
def ensure_columns (df : DF) : Except String DF :=
  if df.hasPhase = false then .error "PHASE"
  else if df.hasAssembly = false then .error "ASSEMBLY NO."
  else if df.hasPart = false then .error "PART NO."
  else if df.hasMass = false then .error "TOT MASS (Kg)"
  else .ok
    { hasPhase := true, hasAssembly := true, hasPart := true, hasMass := true,
      hasEtape := true, hasRowProgress := true, hasCompleted := true,
      rows := df.rows.map (harmonizeRow df.hasEtape df.hasRowProgress df.hasCompleted) }

/-- The state of the caller's frame after `ensure_columns df` returns.  The
source mutates `df` by column assignment (`df["PHASE"] = ...` etc.; there is
no `.copy()` in `ensure_columns`) and then executes `return df`, so on
success the argument aliases the returned frame; on the error path
`st.stop()` is raised before any assignment, leaving the argument intact. -/
def ensure_columns_post (df : DF) : DF :=
  match ensure_columns df with
  | .error _ => df
  | .ok out => out

/-! ## Claim C7 — schema validation (corrected: the sentinel is "None") -/

/-- Raw table with the four required columns but no step column, used to
exhibit the `"None"` (capital N) initialization. -/
def c7df : DF :=
  { hasPhase := true, hasAssembly := true, hasPart := true, hasMass := true,
    hasEtape := false, hasRowProgress := false, hasCompleted := false,
    rows := [{ phase := Cell.str "A", assembly_no := Cell.str "S1",
               part_no := Cell.str "P1", tot_mass := Cell.num 10,
               etape := Cell.nan, rowProgress := Cell.nan, completedMass := Cell.nan }] }

/-- C7 counterexample: the claim says a missing step column is initialized to
`"none"`, but at `c7df` the code initializes every row's step to the string
`"None"` (capital N), which differs from `"none"`. -/
theorem c7_counterexample :
    (ensure_columns c7df).toOption.map (fun out => out.rows.map DFRow.etape) =
      some [Cell.str "None"] ∧
    Cell.str "None" ≠ Cell.str "none" := by decide

/-- C7 (amended): `ensure_columns` fails, naming the (first) missing column,
if and only if one of the required columns `PHASE`, `ASSEMBLY NO.`,
`PART NO.`, `TOT MASS (Kg)` is absent; on success it coerces `PHASE` to
string, coerces `TOT MASS (Kg)` to a number with parse failures becoming
`0.0`, and, when the step column is absent, initializes every row's step to
`"None"`. -/
theorem c7_ensure_columns_amended (df : DF) :
    ((∃ e, ensure_columns df = .error e) ↔
      (df.hasPhase = false ∨ df.hasAssembly = false ∨
       df.hasPart = false ∨ df.hasMass = false)) ∧
    (∀ e, ensure_columns df = .error e →
      (e = "PHASE" ∧ df.hasPhase = false) ∨
      (e = "ASSEMBLY NO." ∧ df.hasAssembly = false) ∨
      (e = "PART NO." ∧ df.hasPart = false) ∨
      (e = "TOT MASS (Kg)" ∧ df.hasMass = false)) ∧
    (∀ out, ensure_columns df = .ok out →
      out.rows.length = df.rows.length ∧
      ∀ (i : Nat) (r s : DFRow), df.rows.get? i = some r → out.rows.get? i = some s →
        s.phase = Cell.str r.phase.asStr ∧
        s.tot_mass = Cell.num (r.tot_mass.toNumeric.getD 0) ∧
        s.etape = (if df.hasEtape then r.etape else Cell.str "None")) := by
  unfold ensure_columns
  by_cases h1 : df.hasPhase = false
  · rw [if_pos h1]
    exact ⟨by simp [h1], fun e he => by injection he with he; subst he; exact Or.inl ⟨rfl, h1⟩,
      fun out hout => absurd hout (by simp)⟩
  · rw [if_neg h1]
    by_cases h2 : df.hasAssembly = false
    · rw [if_pos h2]
      exact ⟨by simp [h2], fun e he => by
        injection he with he; subst he; exact Or.inr (Or.inl ⟨rfl, h2⟩),
        fun out hout => absurd hout (by simp)⟩
    · rw [if_neg h2]
      by_cases h3 : df.hasPart = false
      · rw [if_pos h3]
        exact ⟨by simp [h3], fun e he => by
          injection he with he; subst he; exact Or.inr (Or.inr (Or.inl ⟨rfl, h3⟩)),
          fun out hout => absurd hout (by simp)⟩
      · rw [if_neg h3]
        by_cases h4 : df.hasMass = false
        · rw [if_pos h4]
          exact ⟨by simp [h4], fun e he => by
            injection he with he; subst he; exact Or.inr (Or.inr (Or.inr ⟨rfl, h4⟩)),
            fun out hout => absurd hout (by simp)⟩
        · rw [if_neg h4]
          refine ⟨by simp [h1, h2, h3, h4], fun e he => absurd he (by simp), ?_⟩
          intro out hout
          injection hout with hout
          subst hout
          refine ⟨List.length_map _ _, ?_⟩
          intro i r s hr hs
          simp only [List.get?_eq_getElem?] at hr hs
          simp only [List.getElem?_map, hr] at hs
          injection hs with hs
          subst hs
          exact ⟨rfl, rfl, rfl⟩

/-- Witness for C7 (amended) at `c7df`, row 0. -/
theorem c7_ensure_columns_amended_witness :
    (ensure_columns c7df =
      .ok { hasPhase := true, hasAssembly := true, hasPart := true, hasMass := true,
            hasEtape := true, hasRowProgress := true, hasCompleted := true,
            rows := [{ phase := Cell.str "A", assembly_no := Cell.str "S1",
                       part_no := Cell.str "P1", tot_mass := Cell.num 10,
                       etape := Cell.str "None", rowProgress := Cell.num 0.0,
                       completedMass := Cell.num 0.0 }] }) ∧
    ((∃ e, ensure_columns c7df = .error e) ↔
      (c7df.hasPhase = false ∨ c7df.hasAssembly = false ∨
       c7df.hasPart = false ∨ c7df.hasMass = false)) := by
  constructor
  · rfl
  · exact (c7_ensure_columns_amended c7df).1

/-! ## Claim C8 — ensure_columns mutates its argument (corrected) -/

/-- Valid raw table (all required columns present) whose step column is
absent, so validation visibly changes the frame. -/
def c8df : DF :=
  { hasPhase := true, hasAssembly := true, hasPart := true, hasMass := true,
    hasEtape := false, hasRowProgress := true, hasCompleted := true,
    rows := [{ phase := Cell.str "B", assembly_no := Cell.str "S2",
               part_no := Cell.str "P9", tot_mass := Cell.num 5,
               etape := Cell.nan, rowProgress := Cell.num 0, completedMass := Cell.num 0 }] }

/-- C8 counterexample: the claim says `ensure_columns` never mutates the
input table in place on valid input, but the source assigns columns directly
on `df` (there is no `.copy()`) and returns the same object; at `c8df` (all
required columns present) the argument after the call differs from its
original value. -/
theorem c8_counterexample :
    (c8df.hasPhase = true ∧ c8df.hasAssembly = true ∧
     c8df.hasPart = true ∧ c8df.hasMass = true) ∧
    ensure_columns_post c8df ≠ c8df := by decide

theorem harmonizeRow_stable (e p c : Bool) (r : DFRow) :
    harmonizeRow true true true (harmonizeRow e p c r) = harmonizeRow e p c r := rfl

theorem ensure_columns_stable (df out : DF) (h : ensure_columns df = .ok out) :
    ensure_columns out = .ok out := by
  unfold ensure_columns at h
  by_cases h1 : df.hasPhase = false
  · rw [if_pos h1] at h; cases h
  · rw [if_neg h1] at h
    by_cases h2 : df.hasAssembly = false
    · rw [if_pos h2] at h; cases h
    · rw [if_neg h2] at h
      by_cases h3 : df.hasPart = false
      · rw [if_pos h3] at h; cases h
      · rw [if_neg h3] at h
        by_cases h4 : df.hasMass = false
        · rw [if_pos h4] at h; cases h
        · rw [if_neg h4] at h
          injection h with h
          subst h
          unfold ensure_columns
          rw [if_neg (by simp), if_neg (by simp), if_neg (by simp), if_neg (by simp)]
          have hr : (df.rows.map
              (harmonizeRow df.hasEtape df.hasRowProgress df.hasCompleted)).map
                (harmonizeRow true true true) =
              df.rows.map (harmonizeRow df.hasEtape df.hasRowProgress df.hasCompleted) := by
            rw [List.map_map]
            exact List.map_congr_left
              (fun r _ => harmonizeRow_stable df.hasEtape df.hasRowProgress df.hasCompleted r)
          simp only [hr]

/-- C8 (amended): `ensure_columns` validates its argument in place: on a
table with all required columns present, after the call the argument holds
the returned validated frame — not its original value — while an errored
call leaves the argument untouched; the in-place validation is stable, so
re-validating an already-validated frame changes nothing. -/
theorem c8_ensure_columns_mutates (df : DF) :
    (∀ out, ensure_columns df = .ok out → ensure_columns_post df = out) ∧
    (∀ e, ensure_columns df = .error e → ensure_columns_post df = df) ∧
    ensure_columns_post (ensure_columns_post df) = ensure_columns_post df := by
  refine ⟨?_, ?_, ?_⟩
  · intro out hout
    simp [ensure_columns_post, hout]
  · intro e he
    simp [ensure_columns_post, he]
  · cases hec : ensure_columns df with
    | error e =>
      have h : ensure_columns_post df = df := by simp [ensure_columns_post, hec]
      rw [h, h]
    | ok out =>
      have h : ensure_columns_post df = out := by simp [ensure_columns_post, hec]
      rw [h]
      simp [ensure_columns_post, ensure_columns_stable df out hec]

/-- Witness for C8 (amended) at `c8df`. -/
theorem c8_ensure_columns_mutates_witness :
    ensure_columns c8df =
      .ok { hasPhase := true, hasAssembly := true, hasPart := true, hasMass := true,
            hasEtape := true, hasRowProgress := true, hasCompleted := true,
            rows := [{ phase := Cell.str "B", assembly_no := Cell.str "S2",
                       part_no := Cell.str "P9", tot_mass := Cell.num 5,
                       etape := Cell.str "None", rowProgress := Cell.num 0,
                       completedMass := Cell.num 0 }] } ∧
    ensure_columns_post c8df =
      { hasPhase := true, hasAssembly := true, hasPart := true, hasMass := true,
        hasEtape := true, hasRowProgress := true, hasCompleted := true,
        rows := [{ phase := Cell.str "B", assembly_no := Cell.str "S2",
                   part_no := Cell.str "P9", tot_mass := Cell.num 5,
                   etape := Cell.str "None", rowProgress := Cell.num 0,
                   completedMass := Cell.num 0 }] } ∧
    ensure_columns_post (ensure_columns_post c8df) = ensure_columns_post c8df :=
  ⟨rfl, (c8_ensure_columns_mutates c8df).1 _ rfl, (c8_ensure_columns_mutates c8df).2.2⟩

/-! ## Helper lemmas for the assembly rollup -/

theorem int_min?_spec {l : List ℤ} {a : ℤ} (h : l.min? = some a) :
    a ∈ l ∧ ∀ b ∈ l, a ≤ b :=
  ⟨List.min?_mem (fun x y => min_choice x y) h,
   fun b hb => (List.le_min?_iff (fun _ _ _ => le_min_iff) h).mp (le_refl a) b hb⟩

theorem invRankFill_rankGet (s : String) (hs : s ∈ STEPS_ORDER) :
    invRankFill (rankGet s) = s := by
  fin_cases hs <;> rfl

theorem mem_groupKeys (df : List Record) (k : String × String) :
    k ∈ groupKeys df ↔ ∃ r ∈ df, r.phase = k.1 ∧ r.assembly_no = k.2 := by
  unfold groupKeys
  rw [(List.perm_insertionSort _ _).mem_iff, List.mem_dedup, List.mem_map]
  constructor
  · rintro ⟨r, hr, rfl⟩
    exact ⟨r, hr, rfl, rfl⟩
  · rintro ⟨r, hr, h1, h2⟩
    exact ⟨r, hr, by rw [h1, h2]⟩

theorem groupKeys_nodup (df : List Record) : (groupKeys df).Nodup := by
  have hperm := List.perm_insertionSort (fun a b => pairLe a b = true)
    ((df.map (fun r => (r.phase, r.assembly_no))).dedup)
  exact (hperm.nodup_iff).mpr (List.nodup_dedup _)

/-! ## Claim C9 — assembly rollup (corrected: rank -1 maps to "None") -/

/-- C9 counterexample: the claim says an empty group's rank `-1` maps to
`"none"`, but the source's `.map(inv_rank).fillna("None")` maps the empty
group's aggregated rank `-1` to the string `"None"` (capital N), which
differs from `"none"`. -/
theorem c9_counterexample :
    etapeRankAgg [] = -1 ∧ invRankFill (etapeRankAgg []) = "None" ∧
    invRankFill (etapeRankAgg []) ≠ "none" := by decide

/-- C9 (amended): `assembly_table` groups records by the
`(PHASE, ASSEMBLY NO.)` pair (one output row per distinct pair present),
sets the assembly mass to the sum of the member masses, and sets the
assembly step to the step whose rank is the minimum rank among the member
rows' steps (weakest-link policy); an empty group yields rank `-1`, which
maps to `"None"`.  An assembly with parts at steps Préparation and
Finalisation rolls up to `"Préparation"`. -/
theorem c9_assembly_table_amended (df : List Record) :
    ((assembly_table df).map (fun a => (a.phase, a.assembly_no))).Nodup ∧
    (∀ k : String × String,
      (∃ a ∈ assembly_table df, a.phase = k.1 ∧ a.assembly_no = k.2) ↔
      (∃ r ∈ df, r.phase = k.1 ∧ r.assembly_no = k.2)) ∧
    (∀ a ∈ assembly_table df,
      a.assemblyMass =
        ((groupMembers df (a.phase, a.assembly_no)).map Record.tot_mass).sum ∧
      (groupMembers df (a.phase, a.assembly_no) ≠ [] →
        (∀ r ∈ groupMembers df (a.phase, a.assembly_no), r.etape ∈ STEPS_ORDER) →
        ∃ r0 ∈ groupMembers df (a.phase, a.assembly_no),
          a.etapeAsm = r0.etape ∧
          ∀ r ∈ groupMembers df (a.phase, a.assembly_no),
            rankGet r0.etape ≤ rankGet r.etape)) ∧
    (etapeRankAgg [] = -1 ∧ invRankFill (-1) = "None") ∧
    (assembly_table scenarioA).map AsmRow.etapeAsm = ["Préparation"] := by
  have hmapkeys : (assembly_table df).map (fun a => (a.phase, a.assembly_no)) =
      groupKeys df := by
    simp only [assembly_table, List.map_map]
    exact List.map_id' _
  refine ⟨?_, ?_, ?_, ⟨rfl, rfl⟩, by decide⟩
  · rw [hmapkeys]; exact groupKeys_nodup df
  · intro k
    rw [← mem_groupKeys df k]
    constructor
    · rintro ⟨a, ha, h1, h2⟩
      have : (a.phase, a.assembly_no) ∈ groupKeys df :=
        hmapkeys ▸ List.mem_map_of_mem _ ha
      rwa [h1, h2] at this
    · intro hk
      refine ⟨_, List.mem_map_of_mem _ hk, rfl, rfl⟩
  · intro a ha
    obtain ⟨k, hk, rfl⟩ := List.mem_map.mp ha
    refine ⟨rfl, ?_⟩
    intro hne hall
    set members := groupMembers df k with hmem
    have hsteps : members.map Record.etape ≠ [] := by
      intro h
      exact hne (List.map_eq_nil_iff.mp h)
    have hlen : (members.map Record.etape).length ≠ 0 :=
      fun h => hsteps (List.length_eq_zero.mp h)
    obtain ⟨m, hm⟩ := Option.isSome_iff_exists.mp
      (List.isSome_min?_of_mem (l := (members.map Record.etape).map rankGet)
        (a := rankGet ((members.map Record.etape).headI))
        (List.mem_map_of_mem rankGet (by
          cases hms : members.map Record.etape with
          | nil => exact absurd hms hsteps
          | cons x xs => simp [hms])))
    have hspec := int_min?_spec hm
    obtain ⟨hmem', hlb⟩ := hspec
    obtain ⟨s, hs, hrank⟩ := List.mem_map.mp hmem'
    obtain ⟨r0, hr0, rfl⟩ := List.mem_map.mp hs
    have hagg : etapeRankAgg (members.map Record.etape) = m := by
      unfold etapeRankAgg
      rw [if_pos hlen, hm]
      rfl
    refine ⟨r0, hr0, ?_, ?_⟩
    · show invRankFill (etapeRankAgg (members.map Record.etape)) = r0.etape
      rw [hagg, ← hrank]
      exact invRankFill_rankGet r0.etape (hall r0 hr0)
    · intro r hr
      rw [hrank]
      exact hlb (rankGet r.etape)
        (List.mem_map_of_mem rankGet (List.mem_map_of_mem Record.etape hr))

/-- Witness for C9 (amended): the scenario assembly with parts at steps
Préparation and Finalisation. -/
theorem c9_assembly_table_amended_witness :
    groupMembers scenarioA ("A", "S1") ≠ [] ∧
    (∀ r ∈ groupMembers scenarioA ("A", "S1"), r.etape ∈ STEPS_ORDER) ∧
    ∃ r0 ∈ groupMembers scenarioA ("A", "S1"),
      "Préparation" = r0.etape ∧
      ∀ r ∈ groupMembers scenarioA ("A", "S1"),
        rankGet r0.etape ≤ rankGet r.etape := by
  have hne : groupMembers scenarioA ("A", "S1") ≠ [] := by decide
  have hall : ∀ r ∈ groupMembers scenarioA ("A", "S1"), r.etape ∈ STEPS_ORDER := by decide
  have htab : assembly_table scenarioA = [⟨"A", "S1", 200, "Préparation"⟩] := by
    have h1 : groupKeys scenarioA = [("A", "S1")] := by decide
    have h2 : invRankFill (etapeRankAgg
        ((groupMembers scenarioA ("A", "S1")).map Record.etape)) = "Préparation" := by decide
    rw [assembly_table, h1]
    norm_num +decide [h2, groupMembers, scenarioA, partPrep, partFin, List.filter]
  have hmem : (⟨"A", "S1", 200, "Préparation"⟩ : AsmRow) ∈ assembly_table scenarioA := by
    rw [htab]
    exact List.mem_singleton.mpr rfl
  have h := ((c9_assembly_table_amended scenarioA).2.2.1 _ hmem).2 hne hall
  exact ⟨hne, hall, h⟩

/-! ## Claim C10 — unknown step strings rank below every defined step -/

/-- C10: a record whose step string is not one of the four defined steps
(including the sentinel `"None"` and any unrecognized string) is assigned
rank `-1`, strictly below every defined step's rank, so it contributes to no
step's cumulative treated mass in `step_advancement`; and in the assembly
rollup, any group containing at least one such record gets
`assembly_step = "None"`. -/
theorem c10_unknown_step_excluded :
    (∀ s : String, s ∉ STEPS_ORDER →
      rankGet s = -1 ∧ ∀ t ∈ STEPS_ORDER, rankGet s < rankGet t) ∧
    (∀ (df : List Record) (r : Record), r.etape ∉ STEPS_ORDER →
      (step_advancement (df ++ [r])).map StepRow.completedMass =
        (step_advancement df).map StepRow.completedMass) ∧
    (∀ (df : List Record), ∀ a ∈ assembly_table df,
      (∃ r ∈ groupMembers df (a.phase, a.assembly_no), r.etape ∉ STEPS_ORDER) →
      a.etapeAsm = "None") := by
  refine ⟨?_, ?_, ?_⟩
  · intro s hs
    refine ⟨rankGet_eq_neg_one s hs, ?_⟩
    intro t ht
    calc rankGet s = -1 := rankGet_eq_neg_one s hs
      _ < 0 := by norm_num
      _ ≤ rankGet t := rankGet_nonneg_of_mem_steps t ht
  · intro df r hr
    have htreat : ∀ step ∈ STEPS_ORDER, treated_mass (df ++ [r]) step = treated_mass df step := by
      intro step hstep
      unfold treated_mass
      rw [List.filter_append]
      have hfr : [r].filter (fun x => rankGet step ≤ rankGet x.etape) = [] := by
        have h1 : rankGet r.etape = -1 := rankGet_eq_neg_one r.etape hr
        have h2 : 0 ≤ rankGet step := rankGet_nonneg_of_mem_steps step hstep
        have h3 : ¬ rankGet step ≤ rankGet r.etape := by omega
        simp [List.filter, h3]
      rw [hfr, List.append_nil]
    simp only [step_advancement, List.map_map]
    exact List.map_congr_left (fun step hstep => by
      simp only [Function.comp_apply]
      exact htreat step hstep)
  · intro df a ha hex
    obtain ⟨k, hk, rfl⟩ := List.mem_map.mp ha
    obtain ⟨r, hr, hretape⟩ := hex
    show invRankFill (etapeRankAgg ((groupMembers df k).map Record.etape)) = "None"
    set members := groupMembers df k with hmemdef
    have hrin : r ∈ members := hr
    have hrankmem : rankGet r.etape ∈ (members.map Record.etape).map rankGet :=
      List.mem_map_of_mem rankGet (List.mem_map_of_mem Record.etape hrin)
    obtain ⟨m, hm⟩ := Option.isSome_iff_exists.mp
      (List.isSome_min?_of_mem hrankmem)
    obtain ⟨hmmem, hlb⟩ := int_min?_spec hm
    have hm_eq : m = -1 := by
      have hub : m ≤ rankGet r.etape := hlb _ hrankmem
      have h1 : rankGet r.etape = -1 := rankGet_eq_neg_one r.etape hretape
      obtain ⟨s, _, hs⟩ := List.mem_map.mp hmmem
      have h2 : -1 ≤ m := hs ▸ rankGet_neg_one_le s
      omega
    have hlen : (members.map Record.etape).length ≠ 0 := by
      intro h
      rw [List.length_eq_zero] at h
      rw [h] at hrankmem
      simp at hrankmem
    have hagg : etapeRankAgg (members.map Record.etape) = -1 := by
      unfold etapeRankAgg
      rw [if_pos hlen, hm, hm_eq]
      rfl
    rw [hagg]
    rfl

/-- Witness for C10: the sentinel `"None"` and a record carrying it, appended
to the scenario table; plus an assembly group containing it. -/
theorem c10_unknown_step_excluded_witness :
    ("None" ∉ STEPS_ORDER ∧ rankGet "None" = -1) ∧
    ((step_advancement (scenarioA ++
        [{ phase := "A", assembly_no := "S1", part_no := "P3", tot_mass := 7,
           etape := "None", rowProgress := 0, completedMass_Row := 0 }])).map
        StepRow.completedMass =
      (step_advancement scenarioA).map StepRow.completedMass) ∧
    ((assembly_table [{ phase := "U", assembly_no := "S9", part_no := "P1",
                        tot_mass := 5, etape := "None", rowProgress := 0,
                        completedMass_Row := 0 }]).map AsmRow.etapeAsm = ["None"]) := by
  have hnotin : "None" ∉ STEPS_ORDER := by decide
  refine ⟨⟨hnotin, (c10_unknown_step_excluded.1 "None" hnotin).1⟩, ?_, ?_⟩
  · exact c10_unknown_step_excluded.2.1 scenarioA
      { phase := "A", assembly_no := "S1", part_no := "P3", tot_mass := 7,
        etape := "None", rowProgress := 0, completedMass_Row := 0 } hnotin
  · decide
